import Mathlib

/-!
Verification of gatsby-adapter-aws manifest construction, asset grouping,
function packaging and CDK synthesis logic.

The definitions below are a shallow embedding of the TypeScript sources:
- src/src/adapter/handler.ts (Manifest class: mapRoute, mapAssetGroups,
  dedupeHeaders, DEFAULT_CACHE_CONTROL_MAP, objectKeyFromFilePath)
- src/src/constants.ts (REMOVE_GATSBY_HEADERS)
- src/src/manifest.ts (adapter entry: functionsWithRoutes filter)
- src/src/adapter/functions.ts (prepareFunction required-file copy loop)
- src/unnamed/part_011 (GatsbySite constructor: executor resolution,
  fargate cluster check, lambda sizing)

JavaScript object literals are modelled as ordered association lists with
insert-or-overwrite semantics, matching the enumeration order of
Object.entries for non-integer-like string keys (all keys used by this
package are glob patterns or HTTP header names, which are not integer-like).
External libraries (minimatch, mime, node:crypto) are modelled on the
feature subset this package exercises; each such model carries a doc
comment saying what it stands for.
-/

/-- A key/value HTTP header pair, as in the adapter's Header type. -/
structure Header where
  key : String
  value : String
deriving DecidableEq, Repr

/-- Cache control rule values: the CacheControl union type of handler.ts. -/
inductive CacheControl where
  | NO_CACHE
  | IMMUTABLE
  | value (s : String)
deriving DecidableEq, Repr

/-- Entries of a caller-supplied CacheControlMap record, in object-literal
insertion order. -/
def CacheControlMap := List (String × CacheControl)

/-- Routes of the Gatsby routes manifest: the tagged union of static,
function and redirect routes. Static routes always carry a headers list
(Gatsby's IStaticRoute); redirect routes may lack one. -/
inductive IRoute where
  | staticRoute (path : String) (filePath : String) (headers : List Header)
  | functionRoute (path : String) (functionId : String)
  | redirectRoute (path : String) (toPath : String) (headers : Option (List Header))
deriving DecidableEq, Repr

/-- One entry of the Gatsby functions manifest (IFunctionDefinition). -/
structure IFunctionDefinition where
  functionId : String
  name : String
  pathToEntryPoint : String
  requiredFiles : List String
deriving DecidableEq, Repr

/-- An asset entry of an asset group (IAsset in types.ts). -/
structure IAsset where
  filePath : String
  objectKey : String
deriving DecidableEq, Repr

/-- An asset group (IAssetGroup in types.ts). -/
structure IAssetGroup where
  hash : String
  contentType : String
  cacheControl : Option String
  assets : List IAsset
deriving DecidableEq, Repr

/-- REMOVE_GATSBY_HEADERS from src/src/constants.ts. -/
def REMOVE_GATSBY_HEADERS : List String :=
  ["x-xss-protection", "x-content-type-options", "referrer-policy", "x-frame-options"]

/-- DEFAULT_CACHE_CONTROL_MAP from handler.ts, in object-literal order. -/
def DEFAULT_CACHE_CONTROL_MAP : CacheControlMap :=
  [("/*.js", CacheControl.IMMUTABLE),
   ("/*.js.map", CacheControl.IMMUTABLE),
   ("/*.css", CacheControl.IMMUTABLE),
   ("/page-data/app-data.json", CacheControl.NO_CACHE),
   ("/~partytown/**", CacheControl.NO_CACHE)]

/-- Setting a key on a JavaScript object: overwrite the binding in place if
the key exists, otherwise append it. Enumeration order of the resulting
association list matches Object.entries insertion order. -/
def recordInsert {α : Type} : List (String × α) → String → α → List (String × α)
  | [], k, v => [(k, v)]
  | (k', v') :: rest, k, v =>
    if k' = k then (k, v) :: rest else (k', v') :: recordInsert rest k v

/-- Property access on a JavaScript object modelled as an association list. -/
def lookupRecord {α : Type} : List (String × α) → String → Option α
  | [], _ => none
  | (k, v) :: rest, key => if k = key then some v else lookupRecord rest key

/-- Build an object from a list of entries by successive key assignment,
as an object literal or spread does. -/
def recordOfEntries {α : Type} (entries : List (String × α)) : List (String × α) :=
  entries.foldl (fun acc p => recordInsert acc p.1 p.2) []

/-- Split a character list on a separator character, JavaScript split
semantics: a leading separator yields a leading empty segment. -/
def splitOnChar (sep : Char) : List Char → List (List Char)
  | [] => [[]]
  | c :: rest =>
    let r := splitOnChar sep rest
    if c == sep then [] :: r
    else
      match r with
      | [] => [[c]]
      | seg :: segs => (c :: seg) :: segs

/-- Path segments of a string, split on the slash character. -/
def splitSegs (s : List Char) : List (List Char) := splitOnChar '/' s

/-- Fuel-bounded within-segment glob match: a star matches any run of
characters inside one segment, a question mark matches one character.
The fuel argument only bounds recursion; pattern length plus string
length plus one is always sufficient. -/
def segMatchFuel : Nat → List Char → List Char → Bool
  | 0, _, _ => false
  | _ + 1, [], s => s.isEmpty
  | fuel + 1, p :: ps, s =>
    if p == '*' then
      match s with
      | [] => segMatchFuel fuel ps []
      | _ :: cs => segMatchFuel fuel ps s || segMatchFuel fuel (p :: ps) cs
    else
      match s with
      | [] => false
      | c :: cs => (p == '?' || p == c) && segMatchFuel fuel ps cs

/-- Within-segment glob match with sufficient fuel. -/
def segMatchStr (p s : List Char) : Bool :=
  segMatchFuel (p.length + s.length + 1) p s

/-- Leading-dot protection of minimatch defaults: a name segment starting
with a dot is only matched by a pattern segment starting with a literal
dot. -/
def dotOk (p s : List Char) : Bool :=
  match s with
  | '.' :: _ =>
    match p with
    | '.' :: _ => true
    | _ => false
  | _ => true

/-- Fuel-bounded segment-list glob match: a lone globstar segment matches
zero or more whole path segments (none of which may start with a dot),
any other pattern segment matches exactly one path segment. -/
def segsMatchFuel : Nat → List (List Char) → List (List Char) → Bool
  | 0, _, _ => false
  | fuel + 1, ps, ss =>
    match ps, ss with
    | [], [] => true
    | [], _ :: _ => false
    | p :: ps', ss =>
      if p == ['*', '*'] then
        segsMatchFuel fuel ps' ss ||
          (match ss with
           | [] => false
           | s :: ss' => dotOk ['*'] s && segsMatchFuel fuel (p :: ps') ss')
      else
        match ss with
        | [] => false
        | s :: ss' => dotOk p s && segMatchStr p s && segsMatchFuel fuel ps' ss'

/-- Model of the external minimatch library restricted to the glob
features this package's rule tables use: literal characters, the
question mark, the within-segment star, the globstar segment, and the
default leading-dot protection. Argument order matches the source call
minimatch(path, pattern). -/
def minimatch (path pattern : String) : Bool :=
  let ps := splitSegs pattern.toList
  let ss := splitSegs path.toList
  segsMatchFuel (ps.length + ss.length + 1) ps ss

/-- Literal header value for a cache control rule, as computed inline in
mapRoute of handler.ts. -/
def cacheControlValueString : CacheControl → String
  | CacheControl.IMMUTABLE => "public, max-age=31536000, immutable"
  | CacheControl.NO_CACHE => "public, max-age=0, must-revalidate"
  | CacheControl.value s => s

/-- The merged rule table of mapRoute: the object literal that spreads the
caller-supplied map first and DEFAULT_CACHE_CONTROL_MAP second. -/
def mergedCacheControlMap (cacheControl : CacheControlMap) : CacheControlMap :=
  DEFAULT_CACHE_CONTROL_MAP.foldl (fun acc p => recordInsert acc p.1 p.2)
    (recordOfEntries cacheControl)

/-- The cache-control headers pushed for a route path: one header per
merged-table entry whose pattern matches the path, in Object.entries
order. -/
def cacheControlHeaders (cacheControl : CacheControlMap) (path : String) : List Header :=
  (mergedCacheControlMap cacheControl).filterMap (fun pv =>
    if minimatch path pv.1 then some ⟨"cache-control", cacheControlValueString pv.2⟩ else none)

/-- The headers array mapRoute accumulates before deduplication: the
route's Gatsby headers minus the REMOVE_GATSBY_HEADERS strip list,
followed by the matching cache-control headers. -/
def headerAppends (cacheControl : CacheControlMap) (path : String)
    (routeHeaders : Option (List Header)) : List Header :=
  (match routeHeaders with
   | some hs => hs.filter (fun h => !(REMOVE_GATSBY_HEADERS.contains h.key))
   | none => []) ++ cacheControlHeaders cacheControl path

/-- dedupeHeaders of handler.ts: fold the headers into an object keyed by
exact header key (later writes overwrite earlier ones in place) and read
the entries back out. -/
def dedupeHeaders (headers : List Header) : List Header :=
  (headers.foldl (fun acc h => recordInsert acc h.key h.value) []).map
    (fun p => ⟨p.1, p.2⟩)

/-- Header resolution for one non-function route, as performed inline by
mapRoute of handler.ts. -/
def resolveRouteHeaders (cacheControl : CacheControlMap) (path : String)
    (routeHeaders : Option (List Header)) : List Header :=
  dedupeHeaders (headerAppends cacheControl path routeHeaders)

/-- mapRoute of handler.ts: function routes pass through unchanged, other
routes get their headers rewritten by header resolution. -/
def mapRoute (cacheControl : CacheControlMap) : IRoute → IRoute
  | IRoute.functionRoute path functionId => IRoute.functionRoute path functionId
  | IRoute.staticRoute path filePath headers =>
      IRoute.staticRoute path filePath (resolveRouteHeaders cacheControl path (some headers))
  | IRoute.redirectRoute path toPath headers =>
      IRoute.redirectRoute path toPath (some (resolveRouteHeaders cacheControl path headers))

example : minimatch "/app-abc123.js" "/*.js" = true := by decide
example : minimatch "/dir/main.js" "/*.js" = false := by decide
example : minimatch "/page-data/app-data.json" "/page-data/app-data.json" = true := by decide
example : minimatch "/~partytown/x/y" "/~partytown/**" = true := by decide
example :
    resolveRouteHeaders [] "/app-abc123.js" (some []) =
      [⟨"cache-control", "public, max-age=31536000, immutable"⟩] := by decide

/-- Model of the external mime library's getType for the file extensions a
Gatsby build emits: extension-based lookup on the lowercased extension of
the last path segment, none for unknown extensions. The adapter only
relies on getType being a pure function of the file path. -/
def mimeLookup : String → Option String
  | "js" => some "application/javascript"
  | "mjs" => some "application/javascript"
  | "json" => some "application/json"
  | "css" => some "text/css"
  | "html" => some "text/html"
  | "map" => some "application/json"
  | "txt" => some "text/plain"
  | "xml" => some "application/xml"
  | "svg" => some "image/svg+xml"
  | "png" => some "image/png"
  | "ico" => some "image/vnd.microsoft.icon"
  | "webmanifest" => some "application/manifest+json"
  | _ => none

/-- Extension dispatch of the mime model: the characters after the last dot
of the last slash-separated segment, if any. -/
def mimeGetType (p : String) : Option String :=
  let base := (splitSegs p.toList).getLastD []
  let parts := splitOnChar '.' base
  match parts with
  | [] => none
  | [_] => none
  | _ => mimeLookup (String.mk ((parts.getLastD []).map Char.toLower))

/-- JSON string escaping for the serialized group key (quote and backslash
suffice for the characters reaching it). -/
def jsonEscChar (c : Char) : String :=
  if c == '"' then "\\\"" else if c == '\\' then "\\\\" else String.singleton c

/-- A JSON string literal. -/
def jsonQuote (s : String) : String :=
  "\"" ++ String.join (s.toList.map jsonEscChar) ++ "\""

/-- JSON.stringify of the object literal with contentType and cacheControl
fields, in that key order; an undefined cacheControl is omitted, exactly
as JSON.stringify drops undefined properties. -/
def jsonStringifyPair (contentType : String) (cacheControl : Option String) : String :=
  match cacheControl with
  | some v =>
      "\x7b\"contentType\":" ++ jsonQuote contentType ++
        ",\"cacheControl\":" ++ jsonQuote v ++ "\x7d"
  | none => "\x7b\"contentType\":" ++ jsonQuote contentType ++ "\x7d"

/-- Model of the node:crypto shake256 digest with 3-byte output rendered as
6 hex characters: an external, pure, deterministic function of its input
string. The adapter relies only on determinism (and tolerates collisions,
which a 3-byte digest has); the model uses a simple 24-bit fold with the
same signature and output shape. -/
def digestHex6 (s : String) : String :=
  let n := s.toList.foldl (fun acc c => (acc * 31 + c.toNat) % 16777216) 7
  String.mk ((Nat.toDigits 16 (n + 16777216)).drop 1)

/-- The asset-group key of mapAssetGroups: the digest of the serialized
(contentType, cacheControl) pair. -/
def assetGroupHash (contentType : String) (cacheControl : Option String) : String :=
  digestHex6 (jsonStringifyPair contentType cacheControl)

/-- objectKeyFromFilePath of handler.ts: strip the generator's output-root
prefix. String.replace with a first-occurrence match coincides with
dropping the prefix whenever startsWith holds. -/
def objectKeyFromFilePath (filePath : String) : String :=
  if filePath.startsWith "public/" then (filePath.toList.drop 7).asString else filePath

/-- The fields mapAssetGroups reads from a static route: path, filePath and
resolved headers, produced by its filter on the route type. -/
def staticTriples (routes : List IRoute) : List (String × String × List Header) :=
  routes.filterMap (fun r =>
    match r with
    | IRoute.staticRoute path filePath headers => some (path, filePath, headers)
    | _ => none)

/-- Resolved content type of a static route's file, with the
octet-stream fallback of mapAssetGroups. -/
def contentTypeOfFile (filePath : String) : String :=
  (mimeGetType filePath).getD "application/octet-stream"

/-- The cache-control value mapAssetGroups reads back from a route's
resolved headers: the value of the first header with exact key
cache-control, if any. -/
def ccHeaderValue (headers : List Header) : Option String :=
  (headers.find? (fun h => h.key == "cache-control")).map (fun h => h.value)

/-- The asset record built for one static route. -/
def assetOfFilePath (filePath : String) : IAsset :=
  ⟨filePath, objectKeyFromFilePath filePath⟩

/-- The accumulator update of the mapAssetGroups reduce: the spread of the
accumulator with the group at the route's hash either extended by the new
asset (keeping its position and metadata) or freshly created (appended). -/
def upsertAssetGroup : List (String × IAssetGroup) → String → String → Option String →
    IAsset → List (String × IAssetGroup)
  | [], hash, contentType, cacheControl, a =>
      [(hash, ⟨hash, contentType, cacheControl, [a]⟩)]
  | (k, g) :: rest, hash, contentType, cacheControl, a =>
      if k = hash then (k, ⟨g.hash, g.contentType, g.cacheControl, g.assets ++ [a]⟩) :: rest
      else (k, g) :: upsertAssetGroup rest hash contentType cacheControl a

/-- One step of the mapAssetGroups reduce for a static-route triple. -/
def stepAssetGroup (acc : List (String × IAssetGroup))
    (r : String × String × List Header) : List (String × IAssetGroup) :=
  let contentType := contentTypeOfFile r.2.1
  let cacheControl := ccHeaderValue r.2.2
  let hash := assetGroupHash contentType cacheControl
  upsertAssetGroup acc hash contentType cacheControl (assetOfFilePath r.2.1)

/-- mapAssetGroups of handler.ts: reduce the static routes into an object
keyed by group hash and return Object.values of it. -/
def mapAssetGroups (routes : List IRoute) : List IAssetGroup :=
  ((staticTriples routes).foldl stepAssetGroup []).map (fun p => p.2)

/-- The serialized manifest record. The build identifier is produced by the
external ulid() generator, the only non-deterministic input of the
constructor; it is therefore taken as a parameter. -/
structure ManifestData where
  buildId : String
  routes : List IRoute
  functions : List IFunctionDefinition
  assetGroups : List IAssetGroup
deriving DecidableEq, Repr

/-- The Manifest constructor of handler.ts: map every route, pass the
functions manifest through, and group the mapped routes into asset
groups. -/
def buildManifest (buildId : String) (cacheControl : CacheControlMap)
    (routesManifest : List IRoute) (functionsManifest : List IFunctionDefinition) :
    ManifestData :=
  let routes := routesManifest.map (mapRoute cacheControl)
  { buildId := buildId
    routes := routes
    functions := functionsManifest
    assetGroups := mapAssetGroups routes }

/-- The predicate of the adapter's packaging filter: some function route of
the routes manifest references this function's id. -/
def routeReferencesFunction (f : IFunctionDefinition) (route : IRoute) : Bool :=
  match route with
  | IRoute.functionRoute _ functionId => f.functionId == functionId
  | _ => false

/-- functionsWithRoutes of the adapter entry point (src/src/manifest.ts):
only functions referenced by some function route are packaged. -/
def functionsWithRoutes (routesManifest : List IRoute)
    (functionsManifest : List IFunctionDefinition) : List IFunctionDefinition :=
  functionsManifest.filter (fun f => routesManifest.any (routeReferencesFunction f))

/-- Model of path.join for separator-free components, which is how
prepareFunction uses it. -/
def pathJoin (a b : String) : String := a ++ "/" ++ b

/-- An abstract file system: the set of paths that exist on disk. -/
structure Disk where
  files : List String
deriving DecidableEq, Repr

/-- fs.pathExists against the abstract file system. -/
def pathExists (d : Disk) (p : String) : Bool := d.files.contains p

/-- The per-function output directory of prepareFunction. -/
def functionDirFor (adapterDir functionId : String) : String :=
  pathJoin (pathJoin adapterDir "functions") functionId

/-- The required-file copy loop of prepareFunction (functions.ts lines
22-30): for each declared file, skip it when the source path does not
exist, otherwise copy it into the function directory. The result lists
the performed copies as source/destination pairs, in loop order; the
loop itself is total, so packaging never fails on a missing declared
file. -/
def prepareFunctionCopies (d : Disk) (gatsbyDir adapterDir : String)
    (fn : IFunctionDefinition) : List (String × String) :=
  fn.requiredFiles.foldl (fun acc requiredFile =>
    let sourcePath := pathJoin gatsbyDir requiredFile
    if pathExists d sourcePath then
      acc ++ [(sourcePath, pathJoin (functionDirFor adapterDir fn.functionId) requiredFile)]
    else acc) []

example :
    prepareFunctionCopies ⟨["site/a.txt"]⟩ "site" ".aws" ⟨"fn1", "fn1", "e.js", ["a.txt", "missing.txt"]⟩ =
      [("site/a.txt", ".aws/functions/fn1/a.txt")] := by decide

/-- SSR_ENGINE_FUNCTION_ID from constants. -/
def SSR_ENGINE_FUNCTION_ID : String := "ssr-engine"

/-- GatsbyFunctionOptions of types.ts: the executor target union. Durations
are modelled in seconds and memory sizes in MiB; option fields not
involved in the modelled behavior (functionOptions, which is typed to
exclude timeout and memorySize, provisioned concurrency, packaging,
environment, secrets) are omitted. -/
inductive GatsbyFunctionOptions where
  | disabled
  | lambdaTarget (timeout : Option Nat) (memorySize : Option Nat)
  | fargate (cpu : Option Nat) (memoryLimitMiB : Option Nat)
deriving DecidableEq, Repr

/-- DEFAULT_GATSBY_FUNCTION_OPTIONS of GatsbySite: Lambda with no explicit
sizing. -/
def DEFAULT_GATSBY_FUNCTION_OPTIONS : GatsbyFunctionOptions :=
  GatsbyFunctionOptions.lambdaTarget none none

/-- The target check of needsFargate in the GatsbySite constructor. -/
def isFargateTarget : GatsbyFunctionOptions → Bool
  | GatsbyFunctionOptions.fargate _ _ => true
  | _ => false

/-- Option resolution for one manifest function in the GatsbySite
constructor: the SSR engine takes ssrOptions, every other function takes
the callback result or the Lambda default. -/
def resolveFunctionOptions (ssrOptions : GatsbyFunctionOptions)
    (gatsbyFunctionOptions : Option (IFunctionDefinition → GatsbyFunctionOptions))
    (fn : IFunctionDefinition) : GatsbyFunctionOptions :=
  if SSR_ENGINE_FUNCTION_ID = fn.functionId then ssrOptions
  else
    match gatsbyFunctionOptions with
    | some f => f fn
    | none => DEFAULT_GATSBY_FUNCTION_OPTIONS

/-- functionsWithOptions of the GatsbySite constructor: each manifest
function paired with its resolved options and its SSR-engine flag. -/
def functionsWithOptions (ssrOptions : GatsbyFunctionOptions)
    (gatsbyFunctionOptions : Option (IFunctionDefinition → GatsbyFunctionOptions))
    (functions : List IFunctionDefinition) :
    List (IFunctionDefinition × GatsbyFunctionOptions × Bool) :=
  functions.map (fun fn =>
    (fn, resolveFunctionOptions ssrOptions gatsbyFunctionOptions fn,
      SSR_ENGINE_FUNCTION_ID == fn.functionId))

/-- The Lambda timeout the constructor actually sets, in seconds. In the
source the nullish coalescing binds tighter than the conditional, so the
expression parses as (options.timeout ?? isSsrEngine) ? seconds(30) :
minutes(1); a supplied timeout is a Duration object and hence truthy, so
any supplied timeout selects the 30-second branch. -/
def resolvedTimeoutSeconds (timeout : Option Nat) (isSsrEngine : Bool) : Nat :=
  if (match timeout with
      | some _ => true
      | none => isSsrEngine) then 30 else 60

/-- The Lambda memory size the constructor actually sets, in MiB. As with
the timeout, the source parses as (options.memorySize ?? isSsrEngine) ?
1024 : 512, where a supplied number is truthy unless zero. -/
def resolvedMemorySize (memorySize : Option Nat) (isSsrEngine : Bool) : Nat :=
  if (match memorySize with
      | some m => decide (m ≠ 0)
      | none => isSsrEngine) then 1024 else 512

/-- The cloud resources the GatsbySite constructor declares, in
declaration order. -/
inductive Resource where
  | lambdaExecutor (id : String) (timeoutSeconds : Nat) (memorySize : Nat)
  | fargateExecutor (id : String) (cpu : Nat) (memoryLimitMiB : Nat)
  | bucket
  | distribution
deriving DecidableEq, Repr

/-- The executor-building reduce of the GatsbySite constructor: disabled
functions are skipped, Lambda targets declare a function with the
resolved sizing, Fargate targets require the cluster (the inner guard of
the source) and declare a load-balanced service with its defaults. -/
def buildExecutors (cluster : Bool) :
    List (IFunctionDefinition × GatsbyFunctionOptions × Bool) →
    Except String (List Resource)
  | [] => Except.ok []
  | (fn, options, isSsrEngine) :: rest =>
    match options with
    | GatsbyFunctionOptions.disabled => buildExecutors cluster rest
    | GatsbyFunctionOptions.lambdaTarget timeout memorySize =>
        (buildExecutors cluster rest).map (fun execs =>
          Resource.lambdaExecutor fn.functionId
              (resolvedTimeoutSeconds timeout isSsrEngine)
              (resolvedMemorySize memorySize isSsrEngine) :: execs)
    | GatsbyFunctionOptions.fargate cpu memoryLimitMiB =>
        if !cluster then
          Except.error "Cannot construct a FARGATE executor target without a cluster."
        else
          (buildExecutors cluster rest).map (fun execs =>
            Resource.fargateExecutor fn.functionId (cpu.getD 1024)
                (memoryLimitMiB.getD 2048) :: execs)

/-- The GatsbySite constructor as a declaration plan: resolve options for
every manifest function, abort with the configuration error when some
function targets Fargate and no cluster was supplied (before any
resource is declared), otherwise declare the executors, then the asset
bucket, then the distribution. -/
def gatsbySiteSynth (cluster : Bool) (ssrOptions : GatsbyFunctionOptions)
    (gatsbyFunctionOptions : Option (IFunctionDefinition → GatsbyFunctionOptions))
    (functions : List IFunctionDefinition) : Except String (List Resource) :=
  let fwo := functionsWithOptions ssrOptions gatsbyFunctionOptions functions
  let needsFargate := fwo.any (fun p => isFargateTarget p.2.1)
  if needsFargate && !cluster then
    Except.error "You must provide an ECS cluster when using the FARGATE executor target."
  else
    match buildExecutors cluster fwo with
    | Except.error e => Except.error e
    | Except.ok execs =>
        Except.ok (execs ++ [Resource.bucket, Resource.distribution])

example :
    gatsbySiteSynth true (GatsbyFunctionOptions.lambdaTarget none none) none
        [⟨"ssr-engine", "SSR engine", ".cache/page-ssr/lambda.js", []⟩] =
      Except.ok [Resource.lambdaExecutor "ssr-engine" 30 1024,
        Resource.bucket, Resource.distribution] := rfl

example :
    gatsbySiteSynth false (GatsbyFunctionOptions.fargate none none) none
        [⟨"ssr-engine", "SSR engine", ".cache/page-ssr/lambda.js", []⟩] =
      Except.error "You must provide an ECS cluster when using the FARGATE executor target." := rfl

/-- Lookup after a key assignment: the assigned key reads the new value,
any other key is unaffected. -/
theorem lookup_recordInsert {α : Type} (acc : List (String × α)) (k : String) (v : α)
    (key : String) :
    lookupRecord (recordInsert acc k v) key =
      if k = key then some v else lookupRecord acc key := by
  induction acc with
  | nil => simp [recordInsert, lookupRecord]
  | cons p rest ih =>
    obtain ⟨k', v'⟩ := p
    by_cases hk : k' = k
    · subst hk
      by_cases hkey : k' = key <;> simp [recordInsert, lookupRecord, hkey]
    · by_cases hkey : k' = key
      · subst hkey
        have : ¬ k = k' := fun h => hk h.symm
        simp [recordInsert, lookupRecord, hk, this, ih]
      · simp [recordInsert, lookupRecord, hk, hkey, ih]

/-- Keys present after a key assignment were present before, unless they
are the assigned key. -/
theorem mem_keys_recordInsert {α : Type} (acc : List (String × α)) (k : String) (v : α)
    (x : String) (hx : x ∈ (recordInsert acc k v).map Prod.fst) :
    x ∈ acc.map Prod.fst ∨ x = k := by
  induction acc with
  | nil => simpa [recordInsert] using hx
  | cons p rest ih =>
    obtain ⟨k', v'⟩ := p
    by_cases hk : k' = k
    · subst hk
      simp [recordInsert] at hx ⊢
      tauto
    · simp [recordInsert, hk] at hx ⊢
      rcases hx with h | h
      · tauto
      · rcases ih (by simpa using h) with h' | h'
        · simp at h'
          tauto
        · tauto

/-- Key assignment preserves distinctness of the object's keys. -/
theorem nodup_keys_recordInsert {α : Type} (acc : List (String × α)) (k : String) (v : α)
    (h : (acc.map Prod.fst).Nodup) : ((recordInsert acc k v).map Prod.fst).Nodup := by
  induction acc with
  | nil => simp [recordInsert]
  | cons p rest ih =>
    obtain ⟨k', v'⟩ := p
    simp only [List.map_cons, List.nodup_cons] at h
    by_cases hk : k' = k
    · subst hk
      simpa [recordInsert, List.nodup_cons] using h
    · simp only [recordInsert, if_neg hk, List.map_cons, List.nodup_cons]
      refine ⟨fun hmem => ?_, ih h.2⟩
      rcases mem_keys_recordInsert rest k v k' hmem with h' | h'
      · exact h.1 h'
      · exact hk h'

/-- A binding of an object with distinct keys is what lookup returns. -/
theorem lookup_of_mem_nodup {α : Type} (acc : List (String × α)) (k : String) (v : α)
    (hnd : (acc.map Prod.fst).Nodup) (hmem : (k, v) ∈ acc) :
    lookupRecord acc k = some v := by
  induction acc with
  | nil => cases hmem
  | cons p rest ih =>
    obtain ⟨k', v'⟩ := p
    simp only [List.map_cons, List.nodup_cons] at hnd
    rcases List.mem_cons.mp hmem with h | h
    · injection h with h1 h2
      subst h1
      subst h2
      simp [lookupRecord]
    · have hk : k' ≠ k := by
        intro hk
        subst hk
        exact hnd.1 (by simpa using List.mem_map_of_mem Prod.fst h)
      simp [lookupRecord, hk, ih hnd.2 h]

/-- A successful lookup exposes a binding of the object. -/
theorem mem_of_lookup {α : Type} (acc : List (String × α)) (k : String) (v : α)
    (h : lookupRecord acc k = some v) : (k, v) ∈ acc := by
  induction acc with
  | nil => simp [lookupRecord] at h
  | cons p rest ih =>
    obtain ⟨k', v'⟩ := p
    by_cases hk : k' = k
    · subst hk
      simp [lookupRecord] at h
      subst h
      exact List.mem_cons_self _ _
    · simp only [lookupRecord, if_neg hk] at h
      exact List.mem_cons_of_mem _ (ih h)

/-- The value of the last header carrying a given exact key, if any: later
list entries shadow earlier ones. -/
def lastHeaderValue : List Header → String → Option String
  | [], _ => none
  | h :: t, key =>
    match lastHeaderValue t key with
    | some v => some v
    | none => if h.key = key then some h.value else none

/-- Folding headers into an object reads back, for every key, the last
value written for it, falling back to the initial object. -/
theorem lookup_fold_headers (l : List Header) (acc : List (String × String)) (key : String) :
    lookupRecord (l.foldl (fun acc h => recordInsert acc h.key h.value) acc) key =
      match lastHeaderValue l key with
      | some v => some v
      | none => lookupRecord acc key := by
  induction l generalizing acc with
  | nil => simp [lastHeaderValue]
  | cons h t ih =>
    simp only [List.foldl_cons, lastHeaderValue]
    rw [ih]
    cases hlast : lastHeaderValue t key with
    | some v => simp
    | none =>
      simp only [lookup_recordInsert]
      by_cases hk : h.key = key <;> simp [hk]

/-- Folding headers into an object keeps its keys distinct. -/
theorem nodup_fold_headers (l : List Header) (acc : List (String × String))
    (h : (acc.map Prod.fst).Nodup) :
    ((l.foldl (fun acc h => recordInsert acc h.key h.value) acc).map Prod.fst).Nodup := by
  induction l generalizing acc with
  | nil => simpa
  | cons hd t ih => exact ih _ (nodup_keys_recordInsert acc hd.key hd.value h)

/-- The dedupe invariant: output keys are exactly distinct, and every
output header carries the value of the last input header with its key. -/
theorem dedupeHeaders_last_writer (hs : List Header) :
    ((dedupeHeaders hs).map Header.key).Nodup ∧
      ∀ h, h ∈ dedupeHeaders hs → lastHeaderValue hs h.key = some h.value := by
  have hnd : (((hs.foldl (fun acc h => recordInsert acc h.key h.value) []).map Prod.fst)).Nodup :=
    nodup_fold_headers hs [] (by simp)
  constructor
  · have : (dedupeHeaders hs).map Header.key =
        (hs.foldl (fun acc h => recordInsert acc h.key h.value) []).map Prod.fst := by
      simp [dedupeHeaders, List.map_map]
    rw [this]
    exact hnd
  · intro h hmem
    simp only [dedupeHeaders, List.mem_map] at hmem
    obtain ⟨p, hp, hph⟩ := hmem
    have hlook : lookupRecord (hs.foldl (fun acc h => recordInsert acc h.key h.value) []) p.1 =
        some p.2 := lookup_of_mem_nodup _ _ _ hnd hp
    rw [lookup_fold_headers hs [] p.1] at hlook
    cases hlast : lastHeaderValue hs p.1 with
    | none => rw [hlast] at hlook; simp [lookupRecord] at hlook
    | some v =>
      rw [hlast] at hlook
      simp only [Option.some.injEq] at hlook
      subst hph
      rw [hlast, hlook]

/-- Lowercased key characters, for case-insensitive key comparison. -/
def lowerKeyChars (s : String) : List Char := s.toList.map Char.toLower

/-- C3 (counterexample): a Gatsby-supplied header whose key differs from the
appended cache-control header only in case survives deduplication, so the
resolved list holds two case-insensitively equal keys. -/
theorem resolveRouteHeaders_case_clash :
    ¬ (((resolveRouteHeaders [] "/x.js" (some [⟨"Cache-Control", "private"⟩])).map
        (fun h => lowerKeyChars h.key)).Nodup) := by decide

/-- C3 (amended): for every route processed by header resolution, header
keys are unique under exact (case-sensitive) comparison, and each
resolved header carries the value of the last header with that exact key
appended during resolution. -/
theorem resolveRouteHeaders_last_writer (cacheControl : CacheControlMap) (path : String)
    (routeHeaders : Option (List Header)) :
    ((resolveRouteHeaders cacheControl path routeHeaders).map Header.key).Nodup ∧
      ∀ h, h ∈ resolveRouteHeaders cacheControl path routeHeaders →
        lastHeaderValue (headerAppends cacheControl path routeHeaders) h.key = some h.value :=
  dedupeHeaders_last_writer (headerAppends cacheControl path routeHeaders)

/-- Witness for the amended C3 theorem at a concrete route. -/
theorem resolveRouteHeaders_last_writer_witness :
    ((resolveRouteHeaders [] "/x.js" (some [⟨"Cache-Control", "private"⟩])).map
        Header.key).Nodup ∧
      lastHeaderValue (headerAppends [] "/x.js" (some [⟨"Cache-Control", "private"⟩]))
          "cache-control" = some "public, max-age=31536000, immutable" :=
  ⟨(resolveRouteHeaders_last_writer [] "/x.js" (some [⟨"Cache-Control", "private"⟩])).1,
    (resolveRouteHeaders_last_writer [] "/x.js" (some [⟨"Cache-Control", "private"⟩])).2
      ⟨"cache-control", "public, max-age=31536000, immutable"⟩ (by decide)⟩

/-- C8: with no caller-supplied rules, a static route at /app-abc123.js
resolves to the immutable cache-control header via the built-in rule for
script files, and /page-data/app-data.json resolves to the no-cache
header via its built-in rule. -/
theorem mapRoute_default_cache_scenarios :
    mapRoute [] (IRoute.staticRoute "/app-abc123.js" "public/app-abc123.js" []) =
      IRoute.staticRoute "/app-abc123.js" "public/app-abc123.js"
        [⟨"cache-control", "public, max-age=31536000, immutable"⟩] ∧
    mapRoute []
        (IRoute.staticRoute "/page-data/app-data.json" "public/page-data/app-data.json" []) =
      IRoute.staticRoute "/page-data/app-data.json" "public/page-data/app-data.json"
        [⟨"cache-control", "public, max-age=0, must-revalidate"⟩] := by decide

/-- C5: the manifest constructor is deterministic in everything except the
externally generated build identifier: two builds over identical input
agree on routes, asset groups and functions, and differ only in the
buildId they were handed. -/
theorem buildManifest_buildId_only (b1 b2 : String) (cacheControl : CacheControlMap)
    (rm : List IRoute) (fm : List IFunctionDefinition) :
    (buildManifest b1 cacheControl rm fm).routes = (buildManifest b2 cacheControl rm fm).routes ∧
      (buildManifest b1 cacheControl rm fm).assetGroups =
        (buildManifest b2 cacheControl rm fm).assetGroups ∧
      (buildManifest b1 cacheControl rm fm).functions =
        (buildManifest b2 cacheControl rm fm).functions ∧
      (buildManifest b1 cacheControl rm fm).buildId = b1 :=
  ⟨rfl, rfl, rfl, rfl⟩

/-- C2 (counterexample): a functions manifest holding the ssr-engine
function while no route references it: the packaging filter drops the
SSR engine like any other orphaned function. -/
theorem ssrEngine_orphan_not_packaged :
    ¬ ((⟨"ssr-engine", "SSR engine", ".cache/page-ssr/lambda.js", []⟩ : IFunctionDefinition) ∈
      functionsWithRoutes [IRoute.staticRoute "/" "public/index.html" []]
        [⟨"ssr-engine", "SSR engine", ".cache/page-ssr/lambda.js", []⟩]) := by decide

/-- C2 (amended): the packaging filter retains exactly the manifest
functions referenced by some function route: a listed function is
packaged if and only if a function route references its id, so the SSR
engine is retained precisely when referenced and dropped — like any
other orphaned function — when not. -/
theorem functionsWithRoutes_requires_reference (rm : List IRoute)
    (fm : List IFunctionDefinition) (f : IFunctionDefinition) :
    f ∈ functionsWithRoutes rm fm ↔
      f ∈ fm ∧ rm.any (routeReferencesFunction f) = true := by
  simp [functionsWithRoutes, List.mem_filter]

/-- Witness for the amended C2 theorem: a referenced ssr-engine function is
packaged; an unreferenced one is not. -/
theorem functionsWithRoutes_requires_reference_witness :
    ((⟨"ssr-engine", "SSR engine", ".cache/page-ssr/lambda.js", []⟩ : IFunctionDefinition) ∈
        functionsWithRoutes [IRoute.functionRoute "/ssr" "ssr-engine"]
          [⟨"ssr-engine", "SSR engine", ".cache/page-ssr/lambda.js", []⟩]) ∧
      (⟨"ssr-engine", "SSR engine", ".cache/page-ssr/lambda.js", []⟩ : IFunctionDefinition) ∉
        functionsWithRoutes []
          [⟨"ssr-engine", "SSR engine", ".cache/page-ssr/lambda.js", []⟩] :=
  ⟨(functionsWithRoutes_requires_reference [IRoute.functionRoute "/ssr" "ssr-engine"]
      [⟨"ssr-engine", "SSR engine", ".cache/page-ssr/lambda.js", []⟩]
      ⟨"ssr-engine", "SSR engine", ".cache/page-ssr/lambda.js", []⟩).mpr (by decide),
    fun h =>
      absurd
        ((functionsWithRoutes_requires_reference []
          [⟨"ssr-engine", "SSR engine", ".cache/page-ssr/lambda.js", []⟩]
          ⟨"ssr-engine", "SSR engine", ".cache/page-ssr/lambda.js", []⟩).mp h).2
        (by decide)⟩

/-- Appending through a guarded fold is filtering then mapping. -/
theorem foldl_guard_append {α β : Type} (p : α → Bool) (f : α → β) (l : List α)
    (acc : List β) :
    l.foldl (fun acc a => if p a then acc ++ [f a] else acc) acc =
      acc ++ (l.filter p).map f := by
  induction l generalizing acc with
  | nil => simp
  | cons a t ih =>
    by_cases hp : p a <;> simp [hp, ih, List.filter_cons]

/-- C7: the required-file copy loop of prepareFunction copies exactly the
declared files whose source paths exist, in declaration order, into the
per-function directory; declared-but-missing files are skipped and the
loop is total, so packaging completes without error. -/
theorem prepareFunctionCopies_skips_missing (d : Disk) (gatsbyDir adapterDir : String)
    (fn : IFunctionDefinition) :
    prepareFunctionCopies d gatsbyDir adapterDir fn =
      (fn.requiredFiles.filter (fun rf => pathExists d (pathJoin gatsbyDir rf))).map
        (fun rf => (pathJoin gatsbyDir rf,
          pathJoin (functionDirFor adapterDir fn.functionId) rf)) := by
  have h := foldl_guard_append (fun rf => pathExists d (pathJoin gatsbyDir rf))
    (fun rf => (pathJoin gatsbyDir rf,
      pathJoin (functionDirFor adapterDir fn.functionId) rf)) fn.requiredFiles []
  simpa [prepareFunctionCopies] using h

/-- A pattern that carries a value in the built-in table keeps the built-in
value in the merged table, whatever the caller-supplied table binds it
to: the defaults are spread last. -/
theorem merged_lookup_default (cacheControl : CacheControlMap) (pat : String)
    (d : CacheControl) (hd : lookupRecord DEFAULT_CACHE_CONTROL_MAP pat = some d) :
    lookupRecord (mergedCacheControlMap cacheControl) pat = some d := by
  have hunfold : mergedCacheControlMap cacheControl =
      recordInsert (recordInsert (recordInsert (recordInsert (recordInsert
        (recordOfEntries cacheControl) "/*.js" CacheControl.IMMUTABLE)
        "/*.js.map" CacheControl.IMMUTABLE)
        "/*.css" CacheControl.IMMUTABLE)
        "/page-data/app-data.json" CacheControl.NO_CACHE)
        "/~partytown/**" CacheControl.NO_CACHE := rfl
  rw [hunfold]
  simp only [lookup_recordInsert]
  simp only [DEFAULT_CACHE_CONTROL_MAP, lookupRecord] at hd
  split at hd
  case isTrue h1 =>
    simp only [Option.some.injEq] at hd
    subst hd
    subst h1
    simp
  case isFalse h1 =>
    split at hd
    case isTrue h2 =>
      simp only [Option.some.injEq] at hd
      subst hd
      subst h2
      simp
    case isFalse h2 =>
      split at hd
      case isTrue h3 =>
        simp only [Option.some.injEq] at hd
        subst hd
        subst h3
        simp
      case isFalse h3 =>
        split at hd
        case isTrue h4 =>
          simp only [Option.some.injEq] at hd
          subst hd
          subst h4
          simp
        case isFalse h4 =>
          split at hd
          case isTrue h5 =>
            simp only [Option.some.injEq] at hd
            subst hd
            subst h5
            simp
          case isFalse h5 => exact Option.noConfusion hd

/-- C1: when the caller-supplied cache-control table and the built-in
default table both bind the same glob pattern, the merged table applied
by mapRoute binds it to the built-in value, and every route path the
pattern matches gets the cache-control header built from the built-in
value, not from the caller's entry. -/
theorem mapRoute_builtin_defaults_win (cacheControl : CacheControlMap) (pat : String)
    (v d : CacheControl) (path : String)
    (hc : lookupRecord (recordOfEntries cacheControl) pat = some v)
    (hd : lookupRecord DEFAULT_CACHE_CONTROL_MAP pat = some d)
    (hm : minimatch path pat = true) :
    lookupRecord (mergedCacheControlMap cacheControl) pat = some d ∧
      (⟨"cache-control", cacheControlValueString d⟩ : Header) ∈
        cacheControlHeaders cacheControl path := by
  have hmerge := merged_lookup_default cacheControl pat d hd
  refine ⟨hmerge, ?_⟩
  have hmem := mem_of_lookup _ _ _ hmerge
  simp only [cacheControlHeaders, List.mem_filterMap]
  exact ⟨(pat, d), hmem, by simp [hm]⟩

/-- Witness for C1: a caller override of the built-in script-file pattern
is ignored for a matching route path. -/
theorem mapRoute_builtin_defaults_win_witness :
    lookupRecord (mergedCacheControlMap [("/*.js", CacheControl.value "no-store")]) "/*.js" =
        some CacheControl.IMMUTABLE ∧
      (⟨"cache-control", cacheControlValueString CacheControl.IMMUTABLE⟩ : Header) ∈
        cacheControlHeaders [("/*.js", CacheControl.value "no-store")] "/app.js" :=
  mapRoute_builtin_defaults_win [("/*.js", CacheControl.value "no-store")] "/*.js"
    (CacheControl.value "no-store") CacheControl.IMMUTABLE "/app.js"
    (by decide) (by decide) (by decide)

/-- The group key computed for a static-route triple by the reduce step. -/
def tripleHash (r : String × String × List Header) : String :=
  assetGroupHash (contentTypeOfFile r.2.1) (ccHeaderValue r.2.2)

/-- The reduce step written through its components. -/
theorem stepAssetGroup_eq (acc : List (String × IAssetGroup))
    (r : String × String × List Header) :
    stepAssetGroup acc r =
      upsertAssetGroup acc (tripleHash r) (contentTypeOfFile r.2.1) (ccHeaderValue r.2.2)
        (assetOfFilePath r.2.1) := rfl

/-- Reading the updated key after an upsert: the existing group grew by the
new asset, or a fresh singleton group was created. -/
theorem lookup_upsert_self (acc : List (String × IAssetGroup)) (h ct : String)
    (cc : Option String) (a : IAsset) :
    lookupRecord (upsertAssetGroup acc h ct cc a) h =
      some (match lookupRecord acc h with
            | some g => ⟨g.hash, g.contentType, g.cacheControl, g.assets ++ [a]⟩
            | none => ⟨h, ct, cc, [a]⟩) := by
  induction acc with
  | nil => simp [upsertAssetGroup, lookupRecord]
  | cons p rest ih =>
    obtain ⟨k, g⟩ := p
    by_cases hk : k = h
    · subst hk
      simp [upsertAssetGroup, lookupRecord]
    · simp [upsertAssetGroup, lookupRecord, hk, ih]

/-- Reading any other key after an upsert is unchanged. -/
theorem lookup_upsert_ne (acc : List (String × IAssetGroup)) (h ct : String)
    (cc : Option String) (a : IAsset) (k : String) (hk : k ≠ h) :
    lookupRecord (upsertAssetGroup acc h ct cc a) k = lookupRecord acc k := by
  induction acc with
  | nil =>
    have hne : ¬ h = k := fun he => hk he.symm
    simp [upsertAssetGroup, lookupRecord, hne]
  | cons p rest ih =>
    obtain ⟨k', g⟩ := p
    by_cases hk' : k' = h
    · subst hk'
      have hne : ¬ k' = k := fun he => hk he.symm
      simp [upsertAssetGroup, lookupRecord, hne]
    · by_cases hkk : k' = k
      · subst hkk
        simp [upsertAssetGroup, lookupRecord, hk']
      · simp [upsertAssetGroup, lookupRecord, hk', hkk, ih]

/-- An asset present in some group of the accumulator stays present in the
group under the same key across the whole reduce. -/
theorem fold_preserves_asset (l : List (String × String × List Header))
    (acc : List (String × IAssetGroup)) (k : String) (g : IAssetGroup) (a : IAsset)
    (hl : lookupRecord acc k = some g) (ha : a ∈ g.assets) :
    ∃ g', lookupRecord (l.foldl stepAssetGroup acc) k = some g' ∧ a ∈ g'.assets := by
  induction l generalizing acc g with
  | nil => exact ⟨g, hl, ha⟩
  | cons r t ih =>
    simp only [List.foldl_cons, stepAssetGroup_eq]
    by_cases hk : k = tripleHash r
    · subst hk
      have hstep : lookupRecord (upsertAssetGroup acc (tripleHash r) (contentTypeOfFile r.2.1)
          (ccHeaderValue r.2.2) (assetOfFilePath r.2.1)) (tripleHash r) =
          some ⟨g.hash, g.contentType, g.cacheControl,
            g.assets ++ [assetOfFilePath r.2.1]⟩ := by
        rw [lookup_upsert_self, hl]
      exact ih _ _ hstep (by simp [ha])
    · refine ih _ g ?_ ha
      rw [lookup_upsert_ne _ _ _ _ _ _ hk, hl]

/-- Every processed static route's asset ends up in the group stored under
its key. -/
theorem mem_group_fold (l : List (String × String × List Header))
    (acc : List (String × IAssetGroup)) (r : String × String × List Header) (hr : r ∈ l) :
    ∃ g, lookupRecord (l.foldl stepAssetGroup acc) (tripleHash r) = some g ∧
      assetOfFilePath r.2.1 ∈ g.assets := by
  induction l generalizing acc with
  | nil => cases hr
  | cons r' t ih =>
    rcases List.mem_cons.mp hr with h | h
    · subst h
      simp only [List.foldl_cons, stepAssetGroup_eq]
      cases hacc : lookupRecord acc (tripleHash r) with
      | some g0 =>
        have hstep : lookupRecord (upsertAssetGroup acc (tripleHash r) (contentTypeOfFile r.2.1)
            (ccHeaderValue r.2.2) (assetOfFilePath r.2.1)) (tripleHash r) =
            some ⟨g0.hash, g0.contentType, g0.cacheControl,
              g0.assets ++ [assetOfFilePath r.2.1]⟩ := by
          rw [lookup_upsert_self, hacc]
        exact fold_preserves_asset t _ _ _ _ hstep (by simp)
      | none =>
        have hstep : lookupRecord (upsertAssetGroup acc (tripleHash r) (contentTypeOfFile r.2.1)
            (ccHeaderValue r.2.2) (assetOfFilePath r.2.1)) (tripleHash r) =
            some ⟨tripleHash r, contentTypeOfFile r.2.1, ccHeaderValue r.2.2,
              [assetOfFilePath r.2.1]⟩ := by
          rw [lookup_upsert_self, hacc]
        exact fold_preserves_asset t _ _ _ _ hstep (by simp)
    · simpa only [List.foldl_cons] using ih (stepAssetGroup acc r') h

/-- C9: the asset-group key is a pure function of the resolved content type
and cache-control value: any two static routes agreeing on that pair are
placed into one and the same group of mapAssetGroups, whatever their
file paths. -/
theorem assetGroup_key_pure (routes : List IRoute)
    (r1 r2 : String × String × List Header)
    (h1 : r1 ∈ staticTriples routes) (h2 : r2 ∈ staticTriples routes)
    (hct : contentTypeOfFile r1.2.1 = contentTypeOfFile r2.2.1)
    (hcc : ccHeaderValue r1.2.2 = ccHeaderValue r2.2.2) :
    ∃ g ∈ mapAssetGroups routes,
      assetOfFilePath r1.2.1 ∈ g.assets ∧ assetOfFilePath r2.2.1 ∈ g.assets := by
  obtain ⟨g1, hg1, ha1⟩ := mem_group_fold (staticTriples routes) [] r1 h1
  obtain ⟨g2, hg2, ha2⟩ := mem_group_fold (staticTriples routes) [] r2 h2
  have hh : tripleHash r1 = tripleHash r2 := by
    unfold tripleHash
    rw [hct, hcc]
  rw [hh, hg2] at hg1
  have hgg : g2 = g1 := Option.some.inj hg1
  subst hgg
  refine ⟨g2, ?_, ha1, ha2⟩
  have hmem := mem_of_lookup _ _ _ hg2
  exact List.mem_map_of_mem (fun p => p.2) hmem

/-- Witness for C9: two stylesheet routes with equal resolved type and
cache-control land in one group. -/
theorem assetGroup_key_pure_witness :
    ∃ g ∈ mapAssetGroups
        [IRoute.staticRoute "/a.css" "public/a.css" [],
         IRoute.staticRoute "/styles/b.css" "public/styles/b.css" []],
      assetOfFilePath "public/a.css" ∈ g.assets ∧
        assetOfFilePath "public/styles/b.css" ∈ g.assets :=
  assetGroup_key_pure
    [IRoute.staticRoute "/a.css" "public/a.css" [],
     IRoute.staticRoute "/styles/b.css" "public/styles/b.css" []]
    ("/a.css", "public/a.css", []) ("/styles/b.css", "public/styles/b.css", [])
    (by decide) (by decide) (by decide) (by decide)

/-- Concatenated assets of an association of groups. -/
def groupedAssets : List (String × IAssetGroup) → List IAsset
  | [] => []
  | p :: rest => p.2.assets ++ groupedAssets rest

/-- Concatenated assets across a list of groups: the union the spec speaks
about. -/
def allGroupAssets : List IAssetGroup → List IAsset
  | [] => []
  | g :: rest => g.assets ++ allGroupAssets rest

/-- Dropping the keys does not change the concatenated assets. -/
theorem allGroupAssets_map_snd (acc : List (String × IAssetGroup)) :
    allGroupAssets (acc.map (fun p => p.2)) = groupedAssets acc := by
  induction acc with
  | nil => rfl
  | cons p rest ih => simp [allGroupAssets, groupedAssets, ih]

/-- An upsert adds exactly the new asset to the concatenated assets, up to
permutation. -/
theorem groupedAssets_upsert (acc : List (String × IAssetGroup)) (h ct : String)
    (cc : Option String) (a : IAsset) :
    (groupedAssets (upsertAssetGroup acc h ct cc a)).Perm (groupedAssets acc ++ [a]) := by
  induction acc with
  | nil => simp [upsertAssetGroup, groupedAssets]
  | cons p rest ih =>
    obtain ⟨k, g⟩ := p
    by_cases hk : k = h
    · subst hk
      simp only [upsertAssetGroup, if_pos rfl, groupedAssets]
      have p1 : (g.assets ++ ([a] ++ groupedAssets rest)).Perm
          (g.assets ++ (groupedAssets rest ++ [a])) :=
        List.Perm.append_left _ List.perm_append_comm
      simpa [List.append_assoc] using p1
    · simp only [upsertAssetGroup, if_neg hk, groupedAssets]
      have p1 : (g.assets ++ groupedAssets (upsertAssetGroup rest h ct cc a)).Perm
          (g.assets ++ (groupedAssets rest ++ [a])) := List.Perm.append_left _ ih
      simpa [List.append_assoc] using p1

/-- The reduce accumulates, up to permutation, one asset per processed
static route on top of the initial accumulator's assets. -/
theorem fold_assets_perm (l : List (String × String × List Header))
    (acc : List (String × IAssetGroup)) :
    (groupedAssets (l.foldl stepAssetGroup acc)).Perm
      (groupedAssets acc ++ l.map (fun r => assetOfFilePath r.2.1)) := by
  induction l generalizing acc with
  | nil => simp
  | cons r t ih =>
    simp only [List.foldl_cons, List.map_cons]
    have p1 := ih (stepAssetGroup acc r)
    have p2 : (groupedAssets (stepAssetGroup acc r) ++
        t.map (fun r => assetOfFilePath r.2.1)).Perm
        ((groupedAssets acc ++ [assetOfFilePath r.2.1]) ++
          t.map (fun r => assetOfFilePath r.2.1)) :=
      List.Perm.append_right _ (groupedAssets_upsert acc _ _ _ _)
    have p3 := p1.trans p2
    simpa [List.append_assoc] using p3

/-- File paths of the static routes, in manifest order. -/
def staticFilePaths (routes : List IRoute) : List String :=
  routes.filterMap (fun r =>
    match r with
    | IRoute.staticRoute _ filePath _ => some filePath
    | _ => none)

/-- The static triples project onto the static file paths. -/
theorem staticTriples_map_filePath (routes : List IRoute) :
    (staticTriples routes).map (fun r => r.2.1) = staticFilePaths routes := by
  induction routes with
  | nil => rfl
  | cons r t ih =>
    cases r <;> simp [staticTriples, staticFilePaths, List.filterMap_cons, ih] <;>
      simpa [staticTriples, staticFilePaths] using ih

/-- C4: the union of the assets over all groups produced by mapAssetGroups
is, up to permutation, exactly the static routes' file paths: every
static route contributes exactly one asset, nothing is duplicated, and
no asset stems from a non-static route. -/
theorem mapAssetGroups_assets_perm (routes : List IRoute) :
    ((allGroupAssets (mapAssetGroups routes)).map IAsset.filePath).Perm
      (staticFilePaths routes) := by
  have h1 : allGroupAssets (mapAssetGroups routes) =
      groupedAssets ((staticTriples routes).foldl stepAssetGroup []) :=
    allGroupAssets_map_snd _
  rw [h1]
  have h2 := (fold_assets_perm (staticTriples routes) []).map IAsset.filePath
  simp only [groupedAssets, List.nil_append] at h2
  have h3 : ((staticTriples routes).map (fun r => assetOfFilePath r.2.1)).map IAsset.filePath =
      staticFilePaths routes := by
    rw [List.map_map]
    exact staticTriples_map_filePath routes
  rw [h3] at h2
  exact h2

/-- A function whose resolved options are disabled is transparent to the
executor-building reduce. -/
theorem buildExecutors_middle_disabled (cluster : Bool)
    (l1 l2 : List (IFunctionDefinition × GatsbyFunctionOptions × Bool))
    (t : IFunctionDefinition × GatsbyFunctionOptions × Bool)
    (h : t.2.1 = GatsbyFunctionOptions.disabled) :
    buildExecutors cluster (l1 ++ t :: l2) = buildExecutors cluster (l1 ++ l2) := by
  induction l1 with
  | nil =>
    obtain ⟨fn, options, b⟩ := t
    simp only at h
    subst h
    simp [buildExecutors]
  | cons hd tl ih =>
    obtain ⟨fn, options, b⟩ := hd
    cases options <;> simp [buildExecutors, ih]

/-- C6: synthesizing a GatsbySite whose resolved options include a Fargate
target without a supplied ECS cluster fails with the configuration error
before any executor, bucket or distribution is declared (the error plan
declares no resources); and a function whose resolved options are
disabled is silently dropped: removing it from the manifest leaves the
whole synthesis result unchanged, so it contributes no executor and no
error. -/
theorem gatsbySiteSynth_cluster_and_disabled (ssrOptions : GatsbyFunctionOptions)
    (gfo : Option (IFunctionDefinition → GatsbyFunctionOptions))
    (functions : List IFunctionDefinition) :
    ((functionsWithOptions ssrOptions gfo functions).any
        (fun p => isFargateTarget p.2.1) = true →
      gatsbySiteSynth false ssrOptions gfo functions =
        Except.error
          "You must provide an ECS cluster when using the FARGATE executor target.") ∧
      ∀ (cluster : Bool) (l1 l2 : List IFunctionDefinition) (fn : IFunctionDefinition),
        resolveFunctionOptions ssrOptions gfo fn = GatsbyFunctionOptions.disabled →
        gatsbySiteSynth cluster ssrOptions gfo (l1 ++ fn :: l2) =
          gatsbySiteSynth cluster ssrOptions gfo (l1 ++ l2) := by
  constructor
  · intro h
    simp [gatsbySiteSynth, h]
  · intro cluster l1 l2 fn hdis
    have hmid := buildExecutors_middle_disabled cluster
      (l1.map (fun f => (f, resolveFunctionOptions ssrOptions gfo f,
        SSR_ENGINE_FUNCTION_ID == f.functionId)))
      (l2.map (fun f => (f, resolveFunctionOptions ssrOptions gfo f,
        SSR_ENGINE_FUNCTION_ID == f.functionId)))
      (fn, resolveFunctionOptions ssrOptions gfo fn,
        SSR_ENGINE_FUNCTION_ID == fn.functionId)
      (by simpa using hdis)
    rw [hdis] at hmid
    simp only [gatsbySiteSynth, functionsWithOptions, List.map_append, List.map_cons,
      List.any_append, List.any_cons, hdis, isFargateTarget, hmid, Bool.false_or]

/-- Witness for C6: the SSR engine targeted at Fargate with no cluster
aborts synthesis, and a disabled SSR engine is dropped without error. -/
theorem gatsbySiteSynth_cluster_and_disabled_witness :
    (gatsbySiteSynth false (GatsbyFunctionOptions.fargate none none) none
        [⟨"ssr-engine", "SSR engine", ".cache/page-ssr/lambda.js", []⟩] =
      Except.error
        "You must provide an ECS cluster when using the FARGATE executor target.") ∧
      gatsbySiteSynth true GatsbyFunctionOptions.disabled none
          ([] ++ (⟨"ssr-engine", "SSR engine", ".cache/page-ssr/lambda.js", []⟩ :
            IFunctionDefinition) :: []) =
        gatsbySiteSynth true GatsbyFunctionOptions.disabled none ([] ++ []) :=
  ⟨(gatsbySiteSynth_cluster_and_disabled (GatsbyFunctionOptions.fargate none none) none
      [⟨"ssr-engine", "SSR engine", ".cache/page-ssr/lambda.js", []⟩]).1 (by decide),
    (gatsbySiteSynth_cluster_and_disabled GatsbyFunctionOptions.disabled none []).2
      true [] [] ⟨"ssr-engine", "SSR engine", ".cache/page-ssr/lambda.js", []⟩ (by decide)⟩

/-- C10 (code evaluated at the failing input): an SSR-engine Lambda with a
caller-supplied 300-second timeout and 2048 MiB memory is synthesized
with a 30-second timeout and 1024 MiB: the supplied sizing is discarded,
because the nullish coalescing in the source binds tighter than the
conditional. -/
theorem lambda_supplied_sizing_ignored :
    gatsbySiteSynth true (GatsbyFunctionOptions.lambdaTarget (some 300) (some 2048)) none
        [⟨"ssr-engine", "SSR engine", ".cache/page-ssr/lambda.js", []⟩] =
      Except.ok [Resource.lambdaExecutor "ssr-engine" 30 1024,
        Resource.bucket, Resource.distribution] := rfl
